import Mathlib

/-!
Verification of the smtx shared-mutex (reader-writer lock) library.

The lock consists of two atomic fields, an unsigned reader count and a
boolean writer flag, with nine public operations: init, the shared
acquire family (blocking, try, timed) and release, and the exclusive
acquire family (blocking, try, timed) and release.

Two embeddings are developed below, both translated directly from the C
source:

* a sequential embedding, in which every operation is an executable
  function on the lock state; loops are fuel-indexed, each call to the
  backoff helper spin_with_yield is recorded in a trace, and the
  monotonic clock is an oracle mapping the index of each clock read to
  a 64-bit nanosecond count;

* a concurrent embedding for the interleaving claims: each thread is a
  program counter ranging over the atomic access points of the acquire
  and release code paths, and a step relation interleaves single atomic
  accesses of the threads against the shared state.

Machine arithmetic is explicit: the reader count wraps modulo 2^32
(C unsigned int) and nanosecond values wrap modulo 2^64 (uint64_t).
The weak compare-and-exchange is modelled as failing exactly when the
comparison fails in the sequential embedding; the concurrent step
relation additionally allows spurious failure.
-/

namespace Smtx

/-- Modulus of C unsigned int arithmetic, used by the reader_count field. -/
def UINT_MOD : Nat := 2 ^ 32

/-- Modulus of C uint64_t arithmetic, used by the smtx_ns_t nanosecond type. -/
def UINT64_MOD : Nat := 2 ^ 64

/-- Return codes of the operations: thrd_success, thrd_busy, thrd_timedout,
thrd_error from C11 threads.h, modelled as an enumeration since their
integer values are implementation defined. -/
inductive ThrdResult where
  | success
  | busy
  | timedout
  | error
deriving DecidableEq, Repr

/-- The lock type smtx_t: atomic_uint reader_count, atomic_bool writer_locked.
The reader count is kept as a natural number; all updates reduce it modulo
2^32, matching the wrapping C unsigned arithmetic. -/
structure smtx_t where
  reader_count : Nat
  writer_locked : Bool
deriving DecidableEq, Repr

/-- The C struct timespec: tv_sec (time_t) and tv_nsec (long), both signed. -/
structure timespec where
  tv_sec : Int
  tv_nsec : Int
deriving DecidableEq, Repr

/-- The compile-time configuration macros of the library that the core
protocol reads: SMTX_NEXT_SPINS, SMTX_MAX_WRITER_WAIT_SPINS,
SMTX_MAX_READER_WAIT_SPINS, SMTX_YIELD_THRESHOLD. -/
structure SmtxConfig where
  SMTX_NEXT_SPINS : Nat → Nat
  SMTX_MAX_WRITER_WAIT_SPINS : Nat
  SMTX_MAX_READER_WAIT_SPINS : Nat
  SMTX_YIELD_THRESHOLD : Nat

/-- The default values of the configuration macros: doubling backoff,
caps of 1024 spins, yield threshold 512. -/
def defaultConfig : SmtxConfig :=
  ⟨fun currSpins => currSpins * 2, 1024, 1024, 512⟩

/-- Nanoseconds per second, the SMTX_NS_PER_S constant. -/
def SMTX_NS_PER_S : Nat := 1000000000

/-- The helper ns_from_timespec: computes
(smtx_ns_t)ts->tv_sec * SMTX_NS_PER_S + ts->tv_nsec in uint64_t
arithmetic.  The cast of the signed tv_sec to uint64_t reduces it modulo
2^64 into the range [0, 2^64), as does the implicit conversion of
tv_nsec when it is added; the product and sum wrap modulo 2^64. -/
def ns_from_timespec (ts : timespec) : Nat :=
  let sec64 : Nat := (ts.tv_sec % (UINT64_MOD : Int)).toNat
  let nsec64 : Nat := (ts.tv_nsec % (UINT64_MOD : Int)).toNat
  (sec64 * SMTX_NS_PER_S + nsec64) % UINT64_MOD

/-- The SPIN(delay) macro, a loop executing delay pause hints; the model
returns the number of pause hints executed. -/
def SPIN : Nat → Nat
  | 0 => 0
  | d + 1 => SPIN d + 1

/-- Observable effect of one call to the backoff helper: how many pause
hints ran and whether the thread yielded. -/
structure SpinEffect where
  pauses : Nat
  yielded : Bool
deriving DecidableEq, Repr

/-- The helper spin_with_yield(spins): SPIN(spins), then yield exactly
when spins exceeds SMTX_YIELD_THRESHOLD. -/
def spin_with_yield (cfg : SmtxConfig) (spins : Nat) : SpinEffect :=
  ⟨SPIN spins, decide (cfg.SMTX_YIELD_THRESHOLD < spins)⟩

/-- The spin-count advancement pattern appearing after each backoff call:
if (spins < cap) spins = SMTX_NEXT_SPINS(spins). -/
def advanceSpins (cfg : SmtxConfig) (cap spins : Nat) : Nat :=
  if spins < cap then cfg.SMTX_NEXT_SPINS spins else spins

/-- One atomic_fetch_add_explicit(&reader_count, 1, ...), wrapping modulo
2^32. -/
def incReaders (s : smtx_t) : smtx_t :=
  ⟨(s.reader_count + 1) % UINT_MOD, s.writer_locked⟩

/-- One atomic_fetch_sub_explicit(&reader_count, 1, ...); unsigned
subtraction of 1 is addition of 2^32 - 1 modulo 2^32. -/
def decReaders (s : smtx_t) : smtx_t :=
  ⟨(s.reader_count + (UINT_MOD - 1)) % UINT_MOD, s.writer_locked⟩

/-- The function smtx_init: null handle gives thrd_error, otherwise both
fields are initialized to zero. -/
def smtx_init : Option smtx_t → ThrdResult × Option smtx_t
  | none => (ThrdResult.error, none)
  | some _ => (ThrdResult.success, some ⟨0, false⟩)

/-- The function smtx_trylock_shared.  The trace of spin_with_yield
arguments is part of the result (this function performs none).  The
second load of writer_locked re-reads the unchanged state, as no other
thread interferes in the sequential embedding. -/
def smtx_trylock_shared : Option smtx_t → ThrdResult × Option smtx_t × List Nat
  | none => (ThrdResult.error, none, [])
  | some s =>
    if s.writer_locked then (ThrdResult.busy, some s, [])
    else
      let s1 := incReaders s
      if s1.writer_locked then (ThrdResult.busy, some (decReaders s1), [])
      else (ThrdResult.success, some s1, [])

/-- The function smtx_trylock_exclusive.  The weak compare-and-exchange
from false to true is modelled as succeeding exactly when writer_locked
is false. -/
def smtx_trylock_exclusive : Option smtx_t → ThrdResult × Option smtx_t × List Nat
  | none => (ThrdResult.error, none, [])
  | some s =>
    if s.writer_locked then (ThrdResult.busy, some s, [])
    else
      let s1 : smtx_t := ⟨s.reader_count, true⟩
      match s1.reader_count with
      | _ + 1 => (ThrdResult.busy, some ⟨s1.reader_count, false⟩, [])
      | 0 => (ThrdResult.success, some s1, [])

/-- The function smtx_unlock_shared, in its SMTX_NDEBUG form (the debug
build additionally asserts that the reader count is positive before the
decrement). -/
def smtx_unlock_shared : Option smtx_t → ThrdResult × Option smtx_t
  | none => (ThrdResult.error, none)
  | some s => (ThrdResult.success, some (decReaders s))

/-- The function smtx_unlock_exclusive, in its SMTX_NDEBUG form (the
debug build additionally asserts that writer_locked is true before the
store). -/
def smtx_unlock_exclusive : Option smtx_t → ThrdResult × Option smtx_t
  | none => (ThrdResult.error, none)
  | some s => (ThrdResult.success, some ⟨s.reader_count, false⟩)

/-- The loop of smtx_lock_shared, fuel-indexed.  One unit of fuel is one
loop observation: either a wait iteration on writer_locked (backoff plus
capped advancement with the writer-wait cap), or the optimistic
increment, re-check, and possible backout.  A result of none means the
fuel ran out, i.e. the loop has not terminated within the budget. -/
def lock_shared_loop (cfg : SmtxConfig) (s : smtx_t) (spins : Nat) (tr : List Nat) :
    Nat → Option (ThrdResult × smtx_t) × List Nat
  | 0 => (none, tr)
  | fuel + 1 =>
    if s.writer_locked then
      lock_shared_loop cfg s (advanceSpins cfg cfg.SMTX_MAX_WRITER_WAIT_SPINS spins)
        (tr ++ [spins]) fuel
    else
      let s1 := incReaders s
      if s1.writer_locked then
        lock_shared_loop cfg (decReaders s1) spins tr fuel
      else (some (ThrdResult.success, s1), tr)

/-- Lifts a loop result (state by value) to the public result shape
(state behind the handle). -/
def wrapResult : Option (ThrdResult × smtx_t) × List Nat →
    Option (ThrdResult × Option smtx_t) × List Nat
  | (none, tr) => (none, tr)
  | (some (r, s1), tr) => (some (r, some s1), tr)

/-- The function smtx_lock_shared: null check, then the acquire loop
starting at one spin. -/
def smtx_lock_shared (cfg : SmtxConfig) (l : Option smtx_t) (fuel : Nat) :
    Option (ThrdResult × Option smtx_t) × List Nat :=
  match l with
  | none => (some (ThrdResult.error, none), [])
  | some s => wrapResult (lock_shared_loop cfg s 1 [] fuel)

/-- Phase 2 of smtx_lock_exclusive: with the writer flag held, wait for
the reader count to drain to zero, backing off with the reader-wait
cap. -/
def lock_exclusive_drain (cfg : SmtxConfig) (s : smtx_t) (spins : Nat) (tr : List Nat) :
    Nat → Option (ThrdResult × smtx_t) × List Nat
  | 0 => (none, tr)
  | fuel + 1 =>
    match s.reader_count with
    | _ + 1 =>
      lock_exclusive_drain cfg s (advanceSpins cfg cfg.SMTX_MAX_READER_WAIT_SPINS spins)
        (tr ++ [spins]) fuel
    | 0 => (some (ThrdResult.success, s), tr)

/-- Phase 1 of smtx_lock_exclusive: the bare compare-and-exchange retry
loop (this loop performs no backoff), then the drain phase with the spin
count starting at one. -/
def lock_exclusive_cas (cfg : SmtxConfig) (s : smtx_t) (tr : List Nat) :
    Nat → Option (ThrdResult × smtx_t) × List Nat
  | 0 => (none, tr)
  | fuel + 1 =>
    if s.writer_locked then lock_exclusive_cas cfg s tr fuel
    else lock_exclusive_drain cfg ⟨s.reader_count, true⟩ 1 tr (fuel + 1)

/-- The function smtx_lock_exclusive. -/
def smtx_lock_exclusive (cfg : SmtxConfig) (l : Option smtx_t) (fuel : Nat) :
    Option (ThrdResult × Option smtx_t) × List Nat :=
  match l with
  | none => (some (ThrdResult.error, none), [])
  | some s => wrapResult (lock_exclusive_cas cfg s [] fuel)

/-- The loop of smtx_timedlock_shared.  The loop condition reads the
clock once per iteration (read index k) and compares it against the
precomputed nanosecond deadline; wait iterations and backed-out attempts
both back off and advance with the writer-wait cap. -/
def timedlock_shared_loop (cfg : SmtxConfig) (clock : Nat → Nat) (deadline : Nat)
    (s : smtx_t) (spins k : Nat) (tr : List Nat) :
    Nat → Option (ThrdResult × smtx_t) × List Nat
  | 0 => (none, tr)
  | fuel + 1 =>
    if clock k < deadline then
      if s.writer_locked then
        timedlock_shared_loop cfg clock deadline s
          (advanceSpins cfg cfg.SMTX_MAX_WRITER_WAIT_SPINS spins) (k + 1)
          (tr ++ [spins]) fuel
      else
        let s1 := incReaders s
        if s1.writer_locked then
          timedlock_shared_loop cfg clock deadline (decReaders s1)
            (advanceSpins cfg cfg.SMTX_MAX_WRITER_WAIT_SPINS spins) (k + 1)
            (tr ++ [spins]) fuel
        else (some (ThrdResult.success, s1), tr)
    else (some (ThrdResult.timedout, s), tr)

/-- The function smtx_timedlock_shared: null checks on the handle and the
deadline pointer, then the timed loop with deadline
ns_from_timespec(time_point). -/
def smtx_timedlock_shared (cfg : SmtxConfig) (clock : Nat → Nat)
    (l : Option smtx_t) (time_point : Option timespec) (fuel : Nat) :
    Option (ThrdResult × Option smtx_t) × List Nat :=
  match l, time_point with
  | none, _ => (some (ThrdResult.error, none), [])
  | some s, none => (some (ThrdResult.error, some s), [])
  | some s, some tp => wrapResult (timedlock_shared_loop cfg clock (ns_from_timespec tp) s 1 0 [] fuel)

/-- Phase 2 of smtx_timedlock_exclusive: while the reader count is
observed nonzero, check the deadline (on expiry store false to the
writer flag and return thrd_timedout), otherwise back off with the
reader-wait cap. -/
def timedlock_exclusive_drain (cfg : SmtxConfig) (clock : Nat → Nat) (deadline : Nat)
    (s : smtx_t) (spins k : Nat) (tr : List Nat) :
    Nat → Option (ThrdResult × smtx_t) × List Nat
  | 0 => (none, tr)
  | fuel + 1 =>
    match s.reader_count with
    | _ + 1 =>
      if deadline ≤ clock k then (some (ThrdResult.timedout, ⟨s.reader_count, false⟩), tr)
      else
        timedlock_exclusive_drain cfg clock deadline s
          (advanceSpins cfg cfg.SMTX_MAX_READER_WAIT_SPINS spins) (k + 1)
          (tr ++ [spins]) fuel
    | 0 => (some (ThrdResult.success, s), tr)

/-- Phase 1 of smtx_timedlock_exclusive: attempt the compare-and-exchange
first; only on failure check the deadline and back off, advancing with
the reader-wait cap.  On success fall through to the drain phase with the
current spin count and clock read index. -/
def timedlock_exclusive_cas (cfg : SmtxConfig) (clock : Nat → Nat) (deadline : Nat)
    (s : smtx_t) (spins k : Nat) (tr : List Nat) :
    Nat → Option (ThrdResult × smtx_t) × List Nat
  | 0 => (none, tr)
  | fuel + 1 =>
    if s.writer_locked then
      if deadline ≤ clock k then (some (ThrdResult.timedout, s), tr)
      else
        timedlock_exclusive_cas cfg clock deadline s
          (advanceSpins cfg cfg.SMTX_MAX_READER_WAIT_SPINS spins) (k + 1)
          (tr ++ [spins]) fuel
    else timedlock_exclusive_drain cfg clock deadline ⟨s.reader_count, true⟩ spins k tr (fuel + 1)

/-- The function smtx_timedlock_exclusive: null checks on the handle and
the deadline pointer, then the two deadline-checked phases. -/
def smtx_timedlock_exclusive (cfg : SmtxConfig) (clock : Nat → Nat)
    (l : Option smtx_t) (time_point : Option timespec) (fuel : Nat) :
    Option (ThrdResult × Option smtx_t) × List Nat :=
  match l, time_point with
  | none, _ => (some (ThrdResult.error, none), [])
  | some s, none => (some (ThrdResult.error, some s), [])
  | some s, some tp => wrapResult (timedlock_exclusive_cas cfg clock (ns_from_timespec tp) s 1 0 [] fuel)

theorem SPIN_eq (n : Nat) : SPIN n = n := by
  induction n with
  | zero => rfl
  | succ d ih => simp [SPIN, ih]

/-- C8: for every spin count n, spin_with_yield executes exactly n pause
hints and then yields exactly when n strictly exceeds the yield
threshold; with the default threshold 512, a count of exactly 512 does
not yield. -/
theorem spin_with_yield_pauses_and_yields (cfg : SmtxConfig) (n : Nat) :
    (spin_with_yield cfg n).pauses = n ∧
    ((spin_with_yield cfg n).yielded = true ↔ cfg.SMTX_YIELD_THRESHOLD < n) ∧
    defaultConfig.SMTX_YIELD_THRESHOLD = 512 ∧
    (spin_with_yield defaultConfig 512).yielded = false := by
  refine ⟨SPIN_eq n, ?_, rfl, by decide⟩
  simp [spin_with_yield]

/-- C10: smtx_unlock_shared leaves writer_locked unchanged and
smtx_unlock_exclusive leaves reader_count unchanged, on every lock
state. -/
theorem unlock_touches_only_own_field (s : smtx_t) :
    ((smtx_unlock_shared (some s)).2).map smtx_t.writer_locked = some s.writer_locked ∧
    ((smtx_unlock_exclusive (some s)).2).map smtx_t.reader_count = some s.reader_count := by
  obtain ⟨r, w⟩ := s
  exact ⟨rfl, rfl⟩

/-- C5: every operation called with a null lock handle returns thrd_error
and changes no state, and the timed variants also return thrd_error on a
null deadline pointer before consulting the clock (the result is the
same for every clock oracle) and without touching the lock. -/
theorem null_handle_errors (cfg : SmtxConfig) (clock : Nat → Nat) (fuel : Nat)
    (tp : timespec) (s : smtx_t) :
    smtx_init none = (ThrdResult.error, none) ∧
    smtx_lock_shared cfg none fuel = (some (ThrdResult.error, none), []) ∧
    smtx_trylock_shared none = (ThrdResult.error, none, []) ∧
    smtx_timedlock_shared cfg clock none (some tp) fuel = (some (ThrdResult.error, none), []) ∧
    smtx_unlock_shared none = (ThrdResult.error, none) ∧
    smtx_lock_exclusive cfg none fuel = (some (ThrdResult.error, none), []) ∧
    smtx_trylock_exclusive none = (ThrdResult.error, none, []) ∧
    smtx_timedlock_exclusive cfg clock none (some tp) fuel = (some (ThrdResult.error, none), []) ∧
    smtx_unlock_exclusive none = (ThrdResult.error, none) ∧
    smtx_timedlock_shared cfg clock none none fuel = (some (ThrdResult.error, none), []) ∧
    smtx_timedlock_shared cfg clock (some s) none fuel = (some (ThrdResult.error, some s), []) ∧
    smtx_timedlock_exclusive cfg clock (some s) none fuel = (some (ThrdResult.error, some s), []) :=
  ⟨rfl, rfl, rfl, rfl, rfl, rfl, rfl, rfl, rfl, rfl, rfl, rfl⟩

/-- C4: on an uncontended lock a try-acquire succeeds in a single
attempt: smtx_trylock_shared succeeds whenever writer_locked is false,
and smtx_trylock_exclusive succeeds whenever writer_locked is false and
reader_count is zero; both produce an empty backoff trace (no spin, no
yield). -/
theorem trylock_uncontended_succeeds (s : smtx_t) :
    (s.writer_locked = false →
      smtx_trylock_shared (some s) = (ThrdResult.success, some (incReaders s), [])) ∧
    (s.writer_locked = false → s.reader_count = 0 →
      smtx_trylock_exclusive (some s) = (ThrdResult.success, some ⟨0, true⟩, [])) := by
  obtain ⟨r, w⟩ := s
  cases w
  · refine ⟨fun _ => rfl, fun _ h0 => ?_⟩
    have hr : r = 0 := h0
    subst hr
    rfl
  · exact ⟨fun h => Bool.noConfusion h, fun h _ => Bool.noConfusion h⟩

theorem trylock_uncontended_succeeds_witness :
    smtx_trylock_shared (some ⟨0, false⟩) = (ThrdResult.success, some ⟨1, false⟩, []) ∧
    smtx_trylock_exclusive (some ⟨0, false⟩) = (ThrdResult.success, some ⟨0, true⟩, []) :=
  ⟨(trylock_uncontended_succeeds ⟨0, false⟩).1 rfl,
   (trylock_uncontended_succeeds ⟨0, false⟩).2 rfl rfl⟩

/-- C3: whenever a try-acquire returns thrd_busy the lock state is the
same as before the call; in particular smtx_trylock_exclusive on a
writer-free lock with readers present claims the flag, observes the
nonzero reader count, stores false back, and returns thrd_busy with the
state unchanged. -/
theorem trylock_busy_leaves_state (s : smtx_t) :
    ((smtx_trylock_shared (some s)).1 = ThrdResult.busy →
      (smtx_trylock_shared (some s)).2.1 = some s) ∧
    ((smtx_trylock_exclusive (some s)).1 = ThrdResult.busy →
      (smtx_trylock_exclusive (some s)).2.1 = some s) ∧
    (s.writer_locked = false → 0 < s.reader_count →
      smtx_trylock_exclusive (some s) = (ThrdResult.busy, some s, [])) := by
  obtain ⟨r, w⟩ := s
  cases w
  · cases r with
    | zero =>
      exact ⟨fun h => ThrdResult.noConfusion h, fun h => ThrdResult.noConfusion h,
        fun _ h0 => absurd h0 (Nat.lt_irrefl 0)⟩
    | succ k =>
      exact ⟨fun h => ThrdResult.noConfusion h, fun _ => rfl, fun _ _ => rfl⟩
  · exact ⟨fun _ => rfl, fun _ => rfl, fun h _ => Bool.noConfusion h⟩

theorem UINT_MOD_eq : UINT_MOD = 4294967296 := by norm_num [UINT_MOD]

theorem incReaders_writer_locked (s : smtx_t) :
    (incReaders s).writer_locked = s.writer_locked := by
  obtain ⟨r, w⟩ := s
  rfl

theorem decReaders_writer_locked (s : smtx_t) :
    (decReaders s).writer_locked = s.writer_locked := by
  obtain ⟨r, w⟩ := s
  rfl

theorem decReaders_incReaders (s : smtx_t) (h : s.reader_count < UINT_MOD) :
    decReaders (incReaders s) = s := by
  obtain ⟨r, w⟩ := s
  have hr : r < UINT_MOD := h
  show smtx_t.mk (((r + 1) % UINT_MOD + (UINT_MOD - 1)) % UINT_MOD) w = ⟨r, w⟩
  have key : ((r + 1) % UINT_MOD + (UINT_MOD - 1)) % UINT_MOD = r := by
    rw [UINT_MOD_eq] at hr ⊢
    omega
  rw [key]

/-- Release of a freshly incremented reader count restores the original
state (reader counts below 2^32 cannot be perturbed by the wraparound). -/
theorem unlock_shared_incReaders (s : smtx_t) (h : s.reader_count < UINT_MOD) :
    smtx_unlock_shared (some (incReaders s)) = (ThrdResult.success, some s) := by
  show (ThrdResult.success, some (decReaders (incReaders s))) = (ThrdResult.success, some s)
  rw [decReaders_incReaders s h]

theorem trylock_busy_leaves_state_witness :
    (smtx_trylock_shared (some ⟨0, true⟩)).2.1 = some ⟨0, true⟩ ∧
    smtx_trylock_exclusive (some ⟨2, false⟩) = (ThrdResult.busy, some ⟨2, false⟩, []) :=
  ⟨(trylock_busy_leaves_state ⟨0, true⟩).1 rfl,
   (trylock_busy_leaves_state ⟨2, false⟩).2.2 rfl (by decide)⟩

/-- If the blocking shared-acquire loop returns a result, it is success,
the final state is the input state with the reader count incremented, and
the writer flag was observed false. -/
theorem lock_shared_loop_success (cfg : SmtxConfig) (s : smtx_t) :
    ∀ (fuel spins : Nat) (tr : List Nat) (res : ThrdResult) (s1 : smtx_t) (tr1 : List Nat),
      lock_shared_loop cfg s spins tr fuel = (some (res, s1), tr1) →
      res = ThrdResult.success ∧ s1 = incReaders s ∧ s.writer_locked = false := by
  intro fuel
  induction fuel with
  | zero =>
    intro spins tr res s1 tr1 h
    simp [lock_shared_loop] at h
  | succ n ih =>
    intro spins tr res s1 tr1 h
    rw [lock_shared_loop] at h
    by_cases hw : s.writer_locked = true
    · rw [if_pos hw] at h
      exact ih _ _ res s1 tr1 h
    · have hw2 : s.writer_locked = false := by
        rwa [Bool.not_eq_true] at hw
      rw [if_neg hw] at h
      simp only [incReaders_writer_locked, hw2] at h
      simp at h
      exact ⟨h.1.1.symm, h.1.2.symm, hw2⟩

/-- Writing the writer flag of a writer-free state back as false is the
identity. -/
theorem mk_eta_false (s : smtx_t) (h : s.writer_locked = false) :
    smtx_t.mk s.reader_count false = s := by
  obtain ⟨r, w⟩ := s
  have hw : w = false := h
  subst hw
  rfl

/-- If the timed shared-acquire loop returns a result, it either timed
out leaving the state unchanged, or succeeded with the reader count
incremented after observing the writer flag false. -/
theorem timedlock_shared_loop_success (cfg : SmtxConfig) (clock : Nat → Nat) (deadline : Nat)
    (s : smtx_t) :
    ∀ (fuel spins k : Nat) (tr : List Nat) (res : ThrdResult) (s1 : smtx_t) (tr1 : List Nat),
      timedlock_shared_loop cfg clock deadline s spins k tr fuel = (some (res, s1), tr1) →
      (res = ThrdResult.timedout ∧ s1 = s) ∨
        (res = ThrdResult.success ∧ s1 = incReaders s ∧ s.writer_locked = false) := by
  intro fuel
  induction fuel with
  | zero =>
    intro spins k tr res s1 tr1 h
    simp [timedlock_shared_loop] at h
  | succ n ih =>
    intro spins k tr res s1 tr1 h
    rw [timedlock_shared_loop] at h
    by_cases hc : clock k < deadline
    · rw [if_pos hc] at h
      by_cases hw : s.writer_locked = true
      · rw [if_pos hw] at h
        exact ih _ _ _ res s1 tr1 h
      · have hw2 : s.writer_locked = false := by rwa [Bool.not_eq_true] at hw
        rw [if_neg hw] at h
        simp only [incReaders_writer_locked, hw2] at h
        simp at h
        exact Or.inr ⟨h.1.1.symm, h.1.2.symm, hw2⟩
    · rw [if_neg hc] at h
      simp at h
      exact Or.inl ⟨h.1.1.symm, h.1.2.symm⟩

/-- If the reader-drain loop of smtx_lock_exclusive returns, it returns
success with the state unchanged and the reader count was observed
zero. -/
theorem lock_exclusive_drain_success (cfg : SmtxConfig) (s : smtx_t) :
    ∀ (fuel spins : Nat) (tr : List Nat) (res : ThrdResult) (s1 : smtx_t) (tr1 : List Nat),
      lock_exclusive_drain cfg s spins tr fuel = (some (res, s1), tr1) →
      res = ThrdResult.success ∧ s1 = s ∧ s.reader_count = 0 := by
  intro fuel
  induction fuel with
  | zero =>
    intro spins tr res s1 tr1 h
    simp [lock_exclusive_drain] at h
  | succ n ih =>
    intro spins tr res s1 tr1 h
    rw [lock_exclusive_drain] at h
    cases hn : s.reader_count with
    | zero =>
      rw [hn] at h
      simp at h
      exact ⟨h.1.1.symm, h.1.2.symm, rfl⟩
    | succ m =>
      rw [hn] at h
      simp at h
      have r := ih _ _ res s1 tr1 h
      rw [hn] at r
      exact r

/-- If the compare-and-exchange phase of smtx_lock_exclusive returns, the
writer flag was observed false and claimed, the reader count was observed
zero, and the call returns success. -/
theorem lock_exclusive_cas_success (cfg : SmtxConfig) (s : smtx_t) :
    ∀ (fuel : Nat) (tr : List Nat) (res : ThrdResult) (s1 : smtx_t) (tr1 : List Nat),
      lock_exclusive_cas cfg s tr fuel = (some (res, s1), tr1) →
      res = ThrdResult.success ∧ s1 = smtx_t.mk s.reader_count true ∧
        s.writer_locked = false ∧ s.reader_count = 0 := by
  intro fuel
  induction fuel with
  | zero =>
    intro tr res s1 tr1 h
    simp [lock_exclusive_cas] at h
  | succ n ih =>
    intro tr res s1 tr1 h
    rw [lock_exclusive_cas] at h
    by_cases hw : s.writer_locked = true
    · rw [if_pos hw] at h
      exact ih _ res s1 tr1 h
    · have hw2 : s.writer_locked = false := by rwa [Bool.not_eq_true] at hw
      rw [if_neg hw] at h
      have hd := lock_exclusive_drain_success cfg ⟨s.reader_count, true⟩ _ _ _ res s1 tr1 h
      exact ⟨hd.1, hd.2.1, hw2, hd.2.2⟩

/-- If the deadline-checked drain phase of smtx_timedlock_exclusive
returns, it either timed out after storing false back to the writer
flag, or succeeded with the state unchanged and the reader count
observed zero. -/
theorem timedlock_exclusive_drain_success (cfg : SmtxConfig) (clock : Nat → Nat)
    (deadline : Nat) (s : smtx_t) :
    ∀ (fuel spins k : Nat) (tr : List Nat) (res : ThrdResult) (s1 : smtx_t) (tr1 : List Nat),
      timedlock_exclusive_drain cfg clock deadline s spins k tr fuel = (some (res, s1), tr1) →
      (res = ThrdResult.timedout ∧ s1 = smtx_t.mk s.reader_count false) ∨
        (res = ThrdResult.success ∧ s1 = s ∧ s.reader_count = 0) := by
  intro fuel
  induction fuel with
  | zero =>
    intro spins k tr res s1 tr1 h
    simp [timedlock_exclusive_drain] at h
  | succ n ih =>
    intro spins k tr res s1 tr1 h
    rw [timedlock_exclusive_drain] at h
    cases hn : s.reader_count with
    | zero =>
      rw [hn] at h
      simp at h
      exact Or.inr ⟨h.1.1.symm, h.1.2.symm, rfl⟩
    | succ m =>
      rw [hn] at h
      simp at h
      by_cases hc : deadline ≤ clock k
      · rw [if_pos hc] at h
        simp at h
        exact Or.inl ⟨h.1.1.symm, h.1.2.symm⟩
      · rw [if_neg hc] at h
        have r := ih _ _ _ res s1 tr1 h
        rw [hn] at r
        exact r

/-- If smtx_timedlock_exclusive (after the null checks) returns, it
either timed out with the lock state as before the call, or succeeded
with the writer flag claimed from false and the reader count observed
zero. -/
theorem timedlock_exclusive_cas_success (cfg : SmtxConfig) (clock : Nat → Nat)
    (deadline : Nat) (s : smtx_t) :
    ∀ (fuel spins k : Nat) (tr : List Nat) (res : ThrdResult) (s1 : smtx_t) (tr1 : List Nat),
      timedlock_exclusive_cas cfg clock deadline s spins k tr fuel = (some (res, s1), tr1) →
      (res = ThrdResult.timedout ∧ s1 = s) ∨
        (res = ThrdResult.success ∧ s1 = smtx_t.mk s.reader_count true ∧
          s.writer_locked = false ∧ s.reader_count = 0) := by
  intro fuel
  induction fuel with
  | zero =>
    intro spins k tr res s1 tr1 h
    simp [timedlock_exclusive_cas] at h
  | succ n ih =>
    intro spins k tr res s1 tr1 h
    rw [timedlock_exclusive_cas] at h
    by_cases hw : s.writer_locked = true
    · rw [if_pos hw] at h
      by_cases hc : deadline ≤ clock k
      · rw [if_pos hc] at h
        simp at h
        exact Or.inl ⟨h.1.1.symm, h.1.2.symm⟩
      · rw [if_neg hc] at h
        exact ih _ _ _ res s1 tr1 h
    · have hw2 : s.writer_locked = false := by rwa [Bool.not_eq_true] at hw
      rw [if_neg hw] at h
      have hd := timedlock_exclusive_drain_success cfg clock deadline
        ⟨s.reader_count, true⟩ _ _ _ _ res s1 tr1 h
      rcases hd with ⟨h1, h2⟩ | ⟨h1, h2, h3⟩
      · left
        refine ⟨h1, ?_⟩
        rw [h2]
        exact mk_eta_false s hw2
      · right
        exact ⟨h1, h2, hw2, h3⟩

/-- A successful smtx_trylock_shared increments the reader count after
observing the writer flag false. -/
theorem trylock_shared_success_state (s : smtx_t) (st : Option smtx_t) (tr : List Nat)
    (h : smtx_trylock_shared (some s) = (ThrdResult.success, st, tr)) :
    st = some (incReaders s) ∧ s.writer_locked = false := by
  obtain ⟨r, w⟩ := s
  cases w
  · simp [smtx_trylock_shared, incReaders_writer_locked] at h
    exact ⟨h.1.symm, rfl⟩
  · simp [smtx_trylock_shared] at h

/-- A successful smtx_trylock_exclusive claims the writer flag from
false with the reader count observed zero. -/
theorem trylock_exclusive_success_state (s : smtx_t) (st : Option smtx_t) (tr : List Nat)
    (h : smtx_trylock_exclusive (some s) = (ThrdResult.success, st, tr)) :
    st = some (smtx_t.mk s.reader_count true) ∧ s.writer_locked = false ∧
      s.reader_count = 0 := by
  obtain ⟨r, w⟩ := s
  cases w
  · cases r with
    | zero =>
      simp [smtx_trylock_exclusive] at h
      exact ⟨h.1.symm, rfl, rfl⟩
    | succ m =>
      simp [smtx_trylock_exclusive] at h
  · simp [smtx_trylock_exclusive] at h

/-- C6: for every lock state in which an acquire succeeds, performing
that acquire and then its matching release returns the lock to exactly
the prior state (stated for all six acquire variants, for any reader
count representable in the unsigned field). -/
theorem acquire_release_roundtrip (cfg : SmtxConfig) (clock : Nat → Nat) (s : smtx_t)
    (tp : timespec) (fuel : Nat) (hlt : s.reader_count < UINT_MOD) :
    (∀ st tr, smtx_lock_shared cfg (some s) fuel = (some (ThrdResult.success, st), tr) →
      smtx_unlock_shared st = (ThrdResult.success, some s)) ∧
    (∀ st tr, smtx_trylock_shared (some s) = (ThrdResult.success, st, tr) →
      smtx_unlock_shared st = (ThrdResult.success, some s)) ∧
    (∀ st tr, smtx_timedlock_shared cfg clock (some s) (some tp) fuel
        = (some (ThrdResult.success, st), tr) →
      smtx_unlock_shared st = (ThrdResult.success, some s)) ∧
    (∀ st tr, smtx_lock_exclusive cfg (some s) fuel = (some (ThrdResult.success, st), tr) →
      smtx_unlock_exclusive st = (ThrdResult.success, some s)) ∧
    (∀ st tr, smtx_trylock_exclusive (some s) = (ThrdResult.success, st, tr) →
      smtx_unlock_exclusive st = (ThrdResult.success, some s)) ∧
    (∀ st tr, smtx_timedlock_exclusive cfg clock (some s) (some tp) fuel
        = (some (ThrdResult.success, st), tr) →
      smtx_unlock_exclusive st = (ThrdResult.success, some s)) := by
  have unlockx : smtx_unlock_exclusive (some (smtx_t.mk s.reader_count true))
      = (ThrdResult.success, some (smtx_t.mk s.reader_count false)) := rfl
  refine ⟨?_, ?_, ?_, ?_, ?_, ?_⟩
  · intro st tr h
    rcases hl : lock_shared_loop cfg s 1 [] fuel with ⟨o, tr0⟩
    rw [smtx_lock_shared, hl] at h
    cases o with
    | none =>
      rw [wrapResult] at h
      simp at h
    | some p =>
      obtain ⟨r0, s0⟩ := p
      rw [wrapResult] at h
      simp at h
      have hc := lock_shared_loop_success cfg s fuel 1 [] r0 s0 tr0 hl
      rw [← h.1.2, hc.2.1]
      exact unlock_shared_incReaders s hlt
  · intro st tr h
    obtain ⟨hst, hw⟩ := trylock_shared_success_state s st tr h
    rw [hst]
    exact unlock_shared_incReaders s hlt
  · intro st tr h
    rcases hl : timedlock_shared_loop cfg clock (ns_from_timespec tp) s 1 0 [] fuel
      with ⟨o, tr0⟩
    rw [smtx_timedlock_shared, hl] at h
    cases o with
    | none =>
      rw [wrapResult] at h
      simp at h
    | some p =>
      obtain ⟨r0, s0⟩ := p
      rw [wrapResult] at h
      simp at h
      have hc := timedlock_shared_loop_success cfg clock (ns_from_timespec tp) s
        fuel 1 0 [] r0 s0 tr0 hl
      rcases hc with ⟨h1, h2⟩ | ⟨h1, h2, h3⟩
      · exact absurd (h.1.1.symm.trans h1) (by decide)
      · rw [← h.1.2, h2]
        exact unlock_shared_incReaders s hlt
  · intro st tr h
    rcases hl : lock_exclusive_cas cfg s [] fuel with ⟨o, tr0⟩
    rw [smtx_lock_exclusive, hl] at h
    cases o with
    | none =>
      rw [wrapResult] at h
      simp at h
    | some p =>
      obtain ⟨r0, s0⟩ := p
      rw [wrapResult] at h
      simp at h
      have hc := lock_exclusive_cas_success cfg s fuel [] r0 s0 tr0 hl
      rw [← h.1.2, hc.2.1, unlockx, mk_eta_false s hc.2.2.1]
  · intro st tr h
    obtain ⟨hst, hw, hz⟩ := trylock_exclusive_success_state s st tr h
    rw [hst, unlockx, mk_eta_false s hw]
  · intro st tr h
    rcases hl : timedlock_exclusive_cas cfg clock (ns_from_timespec tp) s 1 0 [] fuel
      with ⟨o, tr0⟩
    rw [smtx_timedlock_exclusive, hl] at h
    cases o with
    | none =>
      rw [wrapResult] at h
      simp at h
    | some p =>
      obtain ⟨r0, s0⟩ := p
      rw [wrapResult] at h
      simp at h
      have hc := timedlock_exclusive_cas_success cfg clock (ns_from_timespec tp) s
        fuel 1 0 [] r0 s0 tr0 hl
      rcases hc with ⟨h1, h2⟩ | ⟨h1, h2, h3, h4⟩
      · exact absurd (h.1.1.symm.trans h1) (by decide)
      · rw [← h.1.2, h2, unlockx, mk_eta_false s h3]

theorem acquire_release_roundtrip_witness :
    smtx_unlock_shared (some ⟨1, false⟩) = (ThrdResult.success, some ⟨0, false⟩) ∧
    smtx_unlock_exclusive (some ⟨0, true⟩) = (ThrdResult.success, some ⟨0, false⟩) := by
  have h := acquire_release_roundtrip defaultConfig (fun _ => 0) ⟨0, false⟩ ⟨1, 0⟩ 1
    (by decide)
  exact ⟨h.1 (some ⟨1, false⟩) [] (by decide), h.2.2.2.1 (some ⟨0, true⟩) [] (by decide)⟩

/-- C1 counterexample: with the deadline already passed (every clock
reading is 1, the deadline normalizes to 0), smtx_timedlock_exclusive on
an idle lock still claims the writer flag and returns thrd_success — not
thrd_timedout — leaving writer_locked changed from false to true. -/
theorem timedlock_exclusive_past_deadline_acquires :
    ns_from_timespec ⟨0, 0⟩ ≤ (fun _ : Nat => 1) 0 ∧
    smtx_timedlock_exclusive defaultConfig (fun _ => 1) (some ⟨0, false⟩) (some ⟨0, 0⟩) 1
      = (some (ThrdResult.success, some ⟨0, true⟩), []) :=
  ⟨by decide, by decide⟩

/-- C1 (amended): with a deadline that has already passed at the first
clock reading, smtx_timedlock_shared returns thrd_timedout with the
state unchanged and no backoff; smtx_timedlock_exclusive does the same
whenever the writer flag is held or readers are present, but when the
lock is idle (writer flag false, reader count zero) its unconditional
first compare-and-exchange succeeds and it returns thrd_success holding
the lock. -/
theorem timedlock_past_deadline (cfg : SmtxConfig) (clock : Nat → Nat) (s : smtx_t)
    (tp : timespec) (fuel : Nat) (hfuel : 0 < fuel)
    (hd : ns_from_timespec tp ≤ clock 0) :
    smtx_timedlock_shared cfg clock (some s) (some tp) fuel
      = (some (ThrdResult.timedout, some s), []) ∧
    (s.writer_locked = true →
      smtx_timedlock_exclusive cfg clock (some s) (some tp) fuel
        = (some (ThrdResult.timedout, some s), [])) ∧
    (s.writer_locked = false → 0 < s.reader_count →
      smtx_timedlock_exclusive cfg clock (some s) (some tp) fuel
        = (some (ThrdResult.timedout, some s), [])) ∧
    (s.writer_locked = false → s.reader_count = 0 →
      smtx_timedlock_exclusive cfg clock (some s) (some tp) fuel
        = (some (ThrdResult.success, some (smtx_t.mk s.reader_count true)), [])) := by
  obtain ⟨f, rfl⟩ : ∃ f, fuel = f + 1 := ⟨fuel - 1, by omega⟩
  obtain ⟨r, w⟩ := s
  refine ⟨?_, ?_, ?_, ?_⟩
  · simp [smtx_timedlock_shared, timedlock_shared_loop, wrapResult, Nat.not_lt.mpr hd]
  · intro hw
    have hw2 : w = true := hw
    subst hw2
    simp [smtx_timedlock_exclusive, timedlock_exclusive_cas, wrapResult, hd]
  · intro hw hr
    have hw2 : w = false := hw
    subst hw2
    have hr2 : 0 < r := hr
    obtain ⟨m, rfl⟩ : ∃ m, r = m + 1 := ⟨r - 1, by omega⟩
    simp [smtx_timedlock_exclusive, timedlock_exclusive_cas, timedlock_exclusive_drain,
      wrapResult, hd]
  · intro hw hz
    have hw2 : w = false := hw
    subst hw2
    have hz2 : r = 0 := hz
    subst hz2
    simp [smtx_timedlock_exclusive, timedlock_exclusive_cas, timedlock_exclusive_drain,
      wrapResult]

theorem timedlock_past_deadline_witness :
    smtx_timedlock_shared defaultConfig (fun _ => 7) (some ⟨2, false⟩) (some ⟨0, 5⟩) 3
      = (some (ThrdResult.timedout, some ⟨2, false⟩), []) ∧
    smtx_timedlock_exclusive defaultConfig (fun _ => 7) (some ⟨2, false⟩) (some ⟨0, 5⟩) 3
      = (some (ThrdResult.timedout, some ⟨2, false⟩), []) := by
  have h := timedlock_past_deadline defaultConfig (fun _ => 7) ⟨2, false⟩ ⟨0, 5⟩ 3
    (by decide) (by decide)
  exact ⟨h.1, h.2.2.1 rfl (by decide)⟩

theorem timedlock_shared_loop_step_true (cfg : SmtxConfig) (clock : Nat → Nat)
    (dl r spins k : Nat) (tr : List Nat) (n : Nat) :
    timedlock_shared_loop cfg clock dl ⟨r, true⟩ spins k tr (n + 1)
      = if clock k < dl then
          timedlock_shared_loop cfg clock dl ⟨r, true⟩
            (advanceSpins cfg cfg.SMTX_MAX_WRITER_WAIT_SPINS spins) (k + 1)
            (tr ++ [spins]) n
        else (some (ThrdResult.timedout, ⟨r, true⟩), tr) := rfl

theorem timedlock_shared_loop_step_false (cfg : SmtxConfig) (clock : Nat → Nat)
    (dl r spins k : Nat) (tr : List Nat) (n : Nat) :
    timedlock_shared_loop cfg clock dl ⟨r, false⟩ spins k tr (n + 1)
      = if clock k < dl then (some (ThrdResult.success, incReaders ⟨r, false⟩), tr)
        else (some (ThrdResult.timedout, ⟨r, false⟩), tr) := rfl

theorem timedlock_exclusive_drain_step_zero (cfg : SmtxConfig) (clock : Nat → Nat)
    (dl : Nat) (w : Bool) (spins k : Nat) (tr : List Nat) (n : Nat) :
    timedlock_exclusive_drain cfg clock dl ⟨0, w⟩ spins k tr (n + 1)
      = (some (ThrdResult.success, ⟨0, w⟩), tr) := rfl

theorem timedlock_exclusive_drain_step_succ (cfg : SmtxConfig) (clock : Nat → Nat)
    (dl m : Nat) (w : Bool) (spins k : Nat) (tr : List Nat) (n : Nat) :
    timedlock_exclusive_drain cfg clock dl ⟨m + 1, w⟩ spins k tr (n + 1)
      = if dl ≤ clock k then (some (ThrdResult.timedout, ⟨m + 1, false⟩), tr)
        else
          timedlock_exclusive_drain cfg clock dl ⟨m + 1, w⟩
            (advanceSpins cfg cfg.SMTX_MAX_READER_WAIT_SPINS spins) (k + 1)
            (tr ++ [spins]) n := rfl

theorem timedlock_exclusive_cas_step_true (cfg : SmtxConfig) (clock : Nat → Nat)
    (dl r spins k : Nat) (tr : List Nat) (n : Nat) :
    timedlock_exclusive_cas cfg clock dl ⟨r, true⟩ spins k tr (n + 1)
      = if dl ≤ clock k then (some (ThrdResult.timedout, ⟨r, true⟩), tr)
        else
          timedlock_exclusive_cas cfg clock dl ⟨r, true⟩
            (advanceSpins cfg cfg.SMTX_MAX_READER_WAIT_SPINS spins) (k + 1)
            (tr ++ [spins]) n := rfl

theorem timedlock_exclusive_cas_step_false (cfg : SmtxConfig) (clock : Nat → Nat)
    (dl r spins k : Nat) (tr : List Nat) (n : Nat) :
    timedlock_exclusive_cas cfg clock dl ⟨r, false⟩ spins k tr (n + 1)
      = timedlock_exclusive_drain cfg clock dl ⟨r, true⟩ spins k tr (n + 1) := rfl

/-- The timed shared loop consults its clock and deadline only through
the comparisons clock i < deadline. -/
theorem timedlock_shared_loop_congr (cfg : SmtxConfig) (c1 c2 : Nat → Nat) (dl1 dl2 : Nat)
    (h : ∀ i, c1 i < dl1 ↔ c2 i < dl2) :
    ∀ (fuel : Nat) (s : smtx_t) (spins k : Nat) (tr : List Nat),
      timedlock_shared_loop cfg c1 dl1 s spins k tr fuel
        = timedlock_shared_loop cfg c2 dl2 s spins k tr fuel := by
  intro fuel
  induction fuel with
  | zero =>
    intro s spins k tr
    rfl
  | succ n ih =>
    intro s spins k tr
    obtain ⟨r, w⟩ := s
    cases w
    · rw [timedlock_shared_loop_step_false, timedlock_shared_loop_step_false]
      by_cases hc : c1 k < dl1
      · rw [if_pos hc, if_pos ((h k).mp hc)]
      · rw [if_neg hc, if_neg (fun hh => hc ((h k).mpr hh))]
    · rw [timedlock_shared_loop_step_true, timedlock_shared_loop_step_true]
      by_cases hc : c1 k < dl1
      · rw [if_pos hc, if_pos ((h k).mp hc)]
        exact ih _ _ _ _
      · rw [if_neg hc, if_neg (fun hh => hc ((h k).mpr hh))]

/-- The drain phase of the timed exclusive acquire consults its clock
and deadline only through the comparisons deadline ≤ clock i. -/
theorem timedlock_exclusive_drain_congr (cfg : SmtxConfig) (c1 c2 : Nat → Nat)
    (dl1 dl2 : Nat) (h : ∀ i, dl1 ≤ c1 i ↔ dl2 ≤ c2 i) :
    ∀ (fuel : Nat) (s : smtx_t) (spins k : Nat) (tr : List Nat),
      timedlock_exclusive_drain cfg c1 dl1 s spins k tr fuel
        = timedlock_exclusive_drain cfg c2 dl2 s spins k tr fuel := by
  intro fuel
  induction fuel with
  | zero =>
    intro s spins k tr
    rfl
  | succ n ih =>
    intro s spins k tr
    obtain ⟨r, w⟩ := s
    cases r with
    | zero => rw [timedlock_exclusive_drain_step_zero, timedlock_exclusive_drain_step_zero]
    | succ m =>
      rw [timedlock_exclusive_drain_step_succ, timedlock_exclusive_drain_step_succ]
      by_cases hc : dl1 ≤ c1 k
      · rw [if_pos hc, if_pos ((h k).mp hc)]
      · rw [if_neg hc, if_neg (fun hh => hc ((h k).mpr hh))]
        exact ih _ _ _ _

/-- The compare-and-exchange phase of the timed exclusive acquire
consults its clock and deadline only through the comparisons
deadline ≤ clock i. -/
theorem timedlock_exclusive_cas_congr (cfg : SmtxConfig) (c1 c2 : Nat → Nat)
    (dl1 dl2 : Nat) (h : ∀ i, dl1 ≤ c1 i ↔ dl2 ≤ c2 i) :
    ∀ (fuel : Nat) (s : smtx_t) (spins k : Nat) (tr : List Nat),
      timedlock_exclusive_cas cfg c1 dl1 s spins k tr fuel
        = timedlock_exclusive_cas cfg c2 dl2 s spins k tr fuel := by
  intro fuel
  induction fuel with
  | zero =>
    intro s spins k tr
    rfl
  | succ n ih =>
    intro s spins k tr
    obtain ⟨r, w⟩ := s
    cases w
    · rw [timedlock_exclusive_cas_step_false, timedlock_exclusive_cas_step_false]
      exact timedlock_exclusive_drain_congr cfg c1 c2 dl1 dl2 h _ _ _ _ _
    · rw [timedlock_exclusive_cas_step_true, timedlock_exclusive_cas_step_true]
      by_cases hc : dl1 ≤ c1 k
      · rw [if_pos hc, if_pos ((h k).mp hc)]
      · rw [if_neg hc, if_neg (fun hh => hc ((h k).mpr hh))]
        exact ih _ _ _ _

/-- C7: ns_from_timespec computes tv_sec * 1000000000 + tv_nsec in
64-bit unsigned arithmetic, i.e. modulo 2^64; and each timed operation
depends on its clock oracle and deadline time point only through the
single integer inequality comparing the current reading with the
deadline, both normalized to nanoseconds by ns_from_timespec. -/
theorem ns_from_timespec_normalizes (cfg : SmtxConfig) :
    (∀ ts : timespec, ns_from_timespec ts
        = ((ts.tv_sec * 1000000000 + ts.tv_nsec) % ((2 : Int) ^ 64)).toNat) ∧
    (∀ (c1 c2 : Nat → Nat) (tp1 tp2 : timespec),
      (∀ i, c1 i < ns_from_timespec tp1 ↔ c2 i < ns_from_timespec tp2) →
      ∀ (l : Option smtx_t) (fuel : Nat),
        smtx_timedlock_shared cfg c1 l (some tp1) fuel
          = smtx_timedlock_shared cfg c2 l (some tp2) fuel) ∧
    (∀ (c1 c2 : Nat → Nat) (tp1 tp2 : timespec),
      (∀ i, ns_from_timespec tp1 ≤ c1 i ↔ ns_from_timespec tp2 ≤ c2 i) →
      ∀ (l : Option smtx_t) (fuel : Nat),
        smtx_timedlock_exclusive cfg c1 l (some tp1) fuel
          = smtx_timedlock_exclusive cfg c2 l (some tp2) fuel) := by
  refine ⟨?_, ?_, ?_⟩
  · intro ts
    obtain ⟨a, b⟩ := ts
    unfold ns_from_timespec
    dsimp only
    have hU : UINT64_MOD = 18446744073709551616 := by norm_num [UINT64_MOD]
    have hP : ((2 : Int) ^ 64) = (18446744073709551616 : Int) := by norm_num
    have hN : SMTX_NS_PER_S = 1000000000 := rfl
    have hC : ((18446744073709551616 : Nat) : Int) = (18446744073709551616 : Int) := by
      norm_cast
    conv_lhs => rw [hU, hN, hC]
    conv_rhs => rw [hP]
    have hA : ((a % (18446744073709551616 : Int)).toNat : Int)
        = a % 18446744073709551616 :=
      Int.toNat_of_nonneg (Int.emod_nonneg a (by norm_num))
    have hB : ((b % (18446744073709551616 : Int)).toNat : Int)
        = b % 18446744073709551616 :=
      Int.toNat_of_nonneg (Int.emod_nonneg b (by norm_num))
    have hR : (((a * 1000000000 + b) % (18446744073709551616 : Int)).toNat : Int)
        = (a * 1000000000 + b) % 18446744073709551616 :=
      Int.toNat_of_nonneg (Int.emod_nonneg _ (by norm_num))
    have ha : Int.ModEq 18446744073709551616 (a % 18446744073709551616) a :=
      Int.emod_emod_of_dvd a (dvd_refl _)
    have hb : Int.ModEq 18446744073709551616 (b % 18446744073709551616) b :=
      Int.emod_emod_of_dvd b (dvd_refl _)
    have hmod : ((a % 18446744073709551616) * 1000000000 + b % 18446744073709551616)
          % 18446744073709551616
        = (a * 1000000000 + b) % 18446744073709551616 :=
      (ha.mul_right 1000000000).add hb
    refine Int.natCast_inj.mp ?_
    rw [Int.natCast_mod, Nat.cast_add, Nat.cast_mul, hA, hB, hR]
    push_cast
    exact hmod
  · intro c1 c2 tp1 tp2 h l fuel
    cases l with
    | none => rfl
    | some s =>
      exact congrArg wrapResult
        (timedlock_shared_loop_congr cfg c1 c2 (ns_from_timespec tp1) (ns_from_timespec tp2)
          h fuel s 1 0 [])
  · intro c1 c2 tp1 tp2 h l fuel
    cases l with
    | none => rfl
    | some s =>
      exact congrArg wrapResult
        (timedlock_exclusive_cas_congr cfg c1 c2 (ns_from_timespec tp1) (ns_from_timespec tp2)
          h fuel s 1 0 [])

theorem ns_from_timespec_normalizes_witness :
    smtx_timedlock_shared defaultConfig (fun _ => 5) (some ⟨0, false⟩) (some ⟨0, 3⟩) 2
      = smtx_timedlock_shared defaultConfig (fun _ => 50) (some ⟨0, false⟩) (some ⟨0, 30⟩) 2 ∧
    smtx_timedlock_exclusive defaultConfig (fun _ => 5) (some ⟨7, true⟩) (some ⟨0, 3⟩) 2
      = smtx_timedlock_exclusive defaultConfig (fun _ => 50) (some ⟨7, true⟩) (some ⟨0, 30⟩) 2 :=
  ⟨(ns_from_timespec_normalizes defaultConfig).2.1 (fun _ => 5) (fun _ => 50) ⟨0, 3⟩ ⟨0, 30⟩
      (fun i => by
        show (5 : Nat) < ns_from_timespec ⟨0, 3⟩ ↔ (50 : Nat) < ns_from_timespec ⟨0, 30⟩
        decide) (some ⟨0, false⟩) 2,
   (ns_from_timespec_normalizes defaultConfig).2.2 (fun _ => 5) (fun _ => 50) ⟨0, 3⟩ ⟨0, 30⟩
      (fun i => by
        show ns_from_timespec ⟨0, 3⟩ ≤ (5 : Nat) ↔ ns_from_timespec ⟨0, 30⟩ ≤ (50 : Nat)
        decide) (some ⟨7, true⟩) 2⟩

/-- The drain phase of smtx_timedlock_exclusive never reads
SMTX_MAX_WRITER_WAIT_SPINS: replacing it changes nothing. -/
theorem timedlock_exclusive_drain_writer_cap (cfg : SmtxConfig) (w : Nat)
    (clock : Nat → Nat) (dl : Nat) :
    ∀ (fuel : Nat) (s : smtx_t) (spins k : Nat) (tr : List Nat),
      timedlock_exclusive_drain
          ⟨cfg.SMTX_NEXT_SPINS, w, cfg.SMTX_MAX_READER_WAIT_SPINS, cfg.SMTX_YIELD_THRESHOLD⟩
          clock dl s spins k tr fuel
        = timedlock_exclusive_drain cfg clock dl s spins k tr fuel := by
  intro fuel
  induction fuel with
  | zero =>
    intro s spins k tr
    rfl
  | succ n ih =>
    intro s spins k tr
    obtain ⟨r, wl⟩ := s
    cases r with
    | zero =>
      rw [timedlock_exclusive_drain_step_zero, timedlock_exclusive_drain_step_zero]
    | succ m =>
      rw [timedlock_exclusive_drain_step_succ, timedlock_exclusive_drain_step_succ]
      have hadv : advanceSpins
          ⟨cfg.SMTX_NEXT_SPINS, w, cfg.SMTX_MAX_READER_WAIT_SPINS, cfg.SMTX_YIELD_THRESHOLD⟩
          (SmtxConfig.SMTX_MAX_READER_WAIT_SPINS
            ⟨cfg.SMTX_NEXT_SPINS, w, cfg.SMTX_MAX_READER_WAIT_SPINS,
              cfg.SMTX_YIELD_THRESHOLD⟩)
          spins
        = advanceSpins cfg cfg.SMTX_MAX_READER_WAIT_SPINS spins := rfl
      rw [hadv, ih]

/-- The compare-and-exchange phase of smtx_timedlock_exclusive never
reads SMTX_MAX_WRITER_WAIT_SPINS either. -/
theorem timedlock_exclusive_cas_writer_cap (cfg : SmtxConfig) (w : Nat)
    (clock : Nat → Nat) (dl : Nat) :
    ∀ (fuel : Nat) (s : smtx_t) (spins k : Nat) (tr : List Nat),
      timedlock_exclusive_cas
          ⟨cfg.SMTX_NEXT_SPINS, w, cfg.SMTX_MAX_READER_WAIT_SPINS, cfg.SMTX_YIELD_THRESHOLD⟩
          clock dl s spins k tr fuel
        = timedlock_exclusive_cas cfg clock dl s spins k tr fuel := by
  intro fuel
  induction fuel with
  | zero =>
    intro s spins k tr
    rfl
  | succ n ih =>
    intro s spins k tr
    obtain ⟨r, wl⟩ := s
    cases wl
    · rw [timedlock_exclusive_cas_step_false, timedlock_exclusive_cas_step_false]
      exact timedlock_exclusive_drain_writer_cap cfg w clock dl _ _ _ _ _
    · rw [timedlock_exclusive_cas_step_true, timedlock_exclusive_cas_step_true]
      have hadv : advanceSpins
          ⟨cfg.SMTX_NEXT_SPINS, w, cfg.SMTX_MAX_READER_WAIT_SPINS, cfg.SMTX_YIELD_THRESHOLD⟩
          (SmtxConfig.SMTX_MAX_READER_WAIT_SPINS
            ⟨cfg.SMTX_NEXT_SPINS, w, cfg.SMTX_MAX_READER_WAIT_SPINS,
              cfg.SMTX_YIELD_THRESHOLD⟩)
          spins
        = advanceSpins cfg cfg.SMTX_MAX_READER_WAIT_SPINS spins := rfl
      rw [hadv, ih]

/-- C9: both phases of smtx_timedlock_exclusive cap their spin count
with SMTX_MAX_READER_WAIT_SPINS (default 1024): the function is
invariant under any change of SMTX_MAX_WRITER_WAIT_SPINS, while its
phase-1 backoff trace on a writer-held lock follows the reader-wait cap
(caps 2 and 8 give traces [1, 2, 2, 2] and [1, 2, 4, 8]); by contrast
the shared timed acquire waiting for that same writer follows the
writer-wait cap (same traces under writer-wait caps 2 and 8). -/
theorem timedlock_exclusive_uses_reader_wait_cap :
    (∀ (cfg : SmtxConfig) (w : Nat) (clock : Nat → Nat) (l : Option smtx_t)
        (tp : Option timespec) (fuel : Nat),
      smtx_timedlock_exclusive
          ⟨cfg.SMTX_NEXT_SPINS, w, cfg.SMTX_MAX_READER_WAIT_SPINS, cfg.SMTX_YIELD_THRESHOLD⟩
          clock l tp fuel
        = smtx_timedlock_exclusive cfg clock l tp fuel) ∧
    defaultConfig.SMTX_MAX_READER_WAIT_SPINS = 1024 ∧
    (smtx_timedlock_exclusive ⟨fun c => c * 2, 1024, 2, 512⟩ (fun _ => 0)
        (some ⟨0, true⟩) (some ⟨1, 0⟩) 4).2 = [1, 2, 2, 2] ∧
    (smtx_timedlock_exclusive ⟨fun c => c * 2, 1024, 8, 512⟩ (fun _ => 0)
        (some ⟨0, true⟩) (some ⟨1, 0⟩) 4).2 = [1, 2, 4, 8] ∧
    (smtx_timedlock_shared ⟨fun c => c * 2, 2, 1024, 512⟩ (fun _ => 0)
        (some ⟨0, true⟩) (some ⟨1, 0⟩) 4).2 = [1, 2, 2, 2] ∧
    (smtx_timedlock_shared ⟨fun c => c * 2, 8, 1024, 512⟩ (fun _ => 0)
        (some ⟨0, true⟩) (some ⟨1, 0⟩) 4).2 = [1, 2, 4, 8] := by
  refine ⟨?_, rfl, by decide, by decide, by decide, by decide⟩
  intro cfg w clock l tp fuel
  cases l with
  | none => rfl
  | some s =>
    cases tp with
    | none => rfl
    | some t =>
      exact congrArg wrapResult
        (timedlock_exclusive_cas_writer_cap cfg w clock (ns_from_timespec t) fuel s 1 0 [])

/-- Concurrent model: a thread is abstracted to a program counter over
the atomic access points of the lock code paths.  idle is outside any
operation; sEntry, sInc, sCheck, sBackout are the points of the shared
acquire (load of writer_locked in the wait loop, the optimistic
fetch-add, the re-check load, the backout fetch-sub); holdS is a
returned successful shared acquire; eEntry is the compare-and-exchange
attempt of an exclusive acquire, eDrain the reader-drain wait with the
flag claimed, holdX a returned successful exclusive acquire. -/
inductive PC where
  | idle
  | sEntry
  | sInc
  | sCheck
  | sBackout
  | holdS
  | eEntry
  | eDrain
  | holdX
deriving DecidableEq, Repr

/-- Shared state of the interleaved system: the bag of thread program
counters and the two atomic fields of the lock. -/
structure Sys where
  threads : Multiset PC
  reader_count : Nat
  writer_locked : Bool

/-- Program counters of threads that have performed the reader-count
fetch-add and not yet the matching fetch-sub. -/
def readerContrib : PC → Bool
  | PC.sCheck => true
  | PC.sBackout => true
  | PC.holdS => true
  | _ => false

/-- Program counters of threads that currently own the writer flag
(claimed by a successful compare-and-exchange, not yet released). -/
def writerish : PC → Bool
  | PC.eDrain => true
  | PC.holdX => true
  | _ => false

@[simp] theorem readerContrib_idle : readerContrib PC.idle = false := rfl
@[simp] theorem readerContrib_sEntry : readerContrib PC.sEntry = false := rfl
@[simp] theorem readerContrib_sInc : readerContrib PC.sInc = false := rfl
@[simp] theorem readerContrib_sCheck : readerContrib PC.sCheck = true := rfl
@[simp] theorem readerContrib_sBackout : readerContrib PC.sBackout = true := rfl
@[simp] theorem readerContrib_holdS : readerContrib PC.holdS = true := rfl
@[simp] theorem readerContrib_eEntry : readerContrib PC.eEntry = false := rfl
@[simp] theorem readerContrib_eDrain : readerContrib PC.eDrain = false := rfl
@[simp] theorem readerContrib_holdX : readerContrib PC.holdX = false := rfl
@[simp] theorem writerish_idle : writerish PC.idle = false := rfl
@[simp] theorem writerish_sEntry : writerish PC.sEntry = false := rfl
@[simp] theorem writerish_sInc : writerish PC.sInc = false := rfl
@[simp] theorem writerish_sCheck : writerish PC.sCheck = false := rfl
@[simp] theorem writerish_sBackout : writerish PC.sBackout = false := rfl
@[simp] theorem writerish_holdS : writerish PC.holdS = false := rfl
@[simp] theorem writerish_eEntry : writerish PC.eEntry = false := rfl
@[simp] theorem writerish_eDrain : writerish PC.eDrain = true := rfl
@[simp] theorem writerish_holdX : writerish PC.holdX = true := rfl

/-- One interleaved atomic access of one thread, translated from the
acquire and release code paths: every case performs exactly one atomic
load, store, read-modify-write or compare-and-exchange of the C code (or
enters or leaves an operation).  The give-up cases are the return paths
of the try and timed variants (busy and timed-out); casFail covers both
a contended and a spurious weak compare-and-exchange failure. -/
inductive Step : Sys → Sys → Prop where
  | startShared (m : Multiset PC) (c : Nat) (f : Bool) :
      Step ⟨PC.idle ::ₘ m, c, f⟩ ⟨PC.sEntry ::ₘ m, c, f⟩
  | startExclusive (m : Multiset PC) (c : Nat) (f : Bool) :
      Step ⟨PC.idle ::ₘ m, c, f⟩ ⟨PC.eEntry ::ₘ m, c, f⟩
  | sharedObserveFree (m : Multiset PC) (c : Nat) :
      Step ⟨PC.sEntry ::ₘ m, c, false⟩ ⟨PC.sInc ::ₘ m, c, false⟩
  | sharedSpin (m : Multiset PC) (c : Nat) :
      Step ⟨PC.sEntry ::ₘ m, c, true⟩ ⟨PC.sEntry ::ₘ m, c, true⟩
  | sharedGiveUp (m : Multiset PC) (c : Nat) (f : Bool) :
      Step ⟨PC.sEntry ::ₘ m, c, f⟩ ⟨PC.idle ::ₘ m, c, f⟩
  | sharedInc (m : Multiset PC) (c : Nat) (f : Bool) :
      Step ⟨PC.sInc ::ₘ m, c, f⟩ ⟨PC.sCheck ::ₘ m, (c + 1) % UINT_MOD, f⟩
  | sharedRecheckFree (m : Multiset PC) (c : Nat) :
      Step ⟨PC.sCheck ::ₘ m, c, false⟩ ⟨PC.holdS ::ₘ m, c, false⟩
  | sharedRecheckWriter (m : Multiset PC) (c : Nat) :
      Step ⟨PC.sCheck ::ₘ m, c, true⟩ ⟨PC.sBackout ::ₘ m, c, true⟩
  | sharedBackout (m : Multiset PC) (c : Nat) (f : Bool) :
      Step ⟨PC.sBackout ::ₘ m, c, f⟩ ⟨PC.sEntry ::ₘ m, (c + (UINT_MOD - 1)) % UINT_MOD, f⟩
  | sharedBackoutGiveUp (m : Multiset PC) (c : Nat) (f : Bool) :
      Step ⟨PC.sBackout ::ₘ m, c, f⟩ ⟨PC.idle ::ₘ m, (c + (UINT_MOD - 1)) % UINT_MOD, f⟩
  | unlockShared (m : Multiset PC) (c : Nat) (f : Bool) :
      Step ⟨PC.holdS ::ₘ m, c, f⟩ ⟨PC.idle ::ₘ m, (c + (UINT_MOD - 1)) % UINT_MOD, f⟩
  | casFail (m : Multiset PC) (c : Nat) (f : Bool) :
      Step ⟨PC.eEntry ::ₘ m, c, f⟩ ⟨PC.eEntry ::ₘ m, c, f⟩
  | casGiveUp (m : Multiset PC) (c : Nat) (f : Bool) :
      Step ⟨PC.eEntry ::ₘ m, c, f⟩ ⟨PC.idle ::ₘ m, c, f⟩
  | casSucceed (m : Multiset PC) (c : Nat) :
      Step ⟨PC.eEntry ::ₘ m, c, false⟩ ⟨PC.eDrain ::ₘ m, c, true⟩
  | drainSpin (m : Multiset PC) (c : Nat) (f : Bool) :
      Step ⟨PC.eDrain ::ₘ m, c, f⟩ ⟨PC.eDrain ::ₘ m, c, f⟩
  | drainDone (m : Multiset PC) (f : Bool) :
      Step ⟨PC.eDrain ::ₘ m, 0, f⟩ ⟨PC.holdX ::ₘ m, 0, f⟩
  | drainGiveUp (m : Multiset PC) (c : Nat) (f : Bool) :
      Step ⟨PC.eDrain ::ₘ m, c, f⟩ ⟨PC.idle ::ₘ m, c, false⟩
  | unlockExclusive (m : Multiset PC) (c : Nat) (f : Bool) :
      Step ⟨PC.holdX ::ₘ m, c, f⟩ ⟨PC.idle ::ₘ m, c, false⟩

/-- Reflexive-transitive closure of the step relation. -/
inductive Reachable (s0 : Sys) : Sys → Prop where
  | refl : Reachable s0 s0
  | tail {s1 s2 : Sys} : Reachable s0 s1 → Step s1 s2 → Reachable s0 s2

/-- An observation point at which every in-flight acquire has returned
success and no release has begun: every thread is outside the lock code
or holds the lock. -/
def Quiescent (s : Sys) : Prop :=
  ∀ pc ∈ s.threads, pc = PC.idle ∨ pc = PC.holdS ∨ pc = PC.holdX

/-- The inductive invariant of the protocol: the reader count equals the
number of threads past their fetch-add and before their fetch-sub; at
most one thread owns the writer flag, and the flag is set exactly when
one does; and while a writer holds the lock no thread holds it
shared. -/
structure Inv (s : Sys) : Prop where
  card_lt : Multiset.card s.threads < UINT_MOD
  counted : s.reader_count = s.threads.countP (fun pc => readerContrib pc = true)
  writer_once : s.threads.countP (fun pc => writerish pc = true) ≤ 1
  flag : s.writer_locked = true ↔ 0 < s.threads.countP (fun pc => writerish pc = true)
  excl : PC.holdX ∈ s.threads → s.threads.countP (fun pc => pc = PC.holdS) = 0

theorem inv_init (s0 : Sys) (hidle : ∀ pc ∈ s0.threads, pc = PC.idle)
    (hc0 : s0.reader_count = 0) (hf0 : s0.writer_locked = false)
    (hcard : Multiset.card s0.threads < UINT_MOD) : Inv s0 := by
  have hrc : s0.threads.countP (fun pc => readerContrib pc = true) = 0 :=
    Multiset.countP_eq_zero.mpr (by
      intro a ha
      rw [hidle a ha]
      simp [readerContrib])
  have hw : s0.threads.countP (fun pc => writerish pc = true) = 0 :=
    Multiset.countP_eq_zero.mpr (by
      intro a ha
      rw [hidle a ha]
      simp [writerish])
  refine ⟨hcard, by rw [hc0, hrc], by rw [hw]; exact Nat.zero_le 1, ?_, ?_⟩
  · rw [hw, hf0]
    simp
  · intro hx
    have := hidle PC.holdX hx
    exact absurd this (by decide)

theorem writerish_mem_pos {m : Multiset PC} (hx : PC.holdX ∈ m) :
    0 < Multiset.countP (fun pc => writerish pc = true) m :=
  Multiset.countP_pos.mpr ⟨PC.holdX, hx, rfl⟩

theorem no_holdS_of_readerContrib_zero {m : Multiset PC}
    (h0 : Multiset.countP (fun pc => readerContrib pc = true) m = 0) :
    Multiset.countP (fun pc => pc = PC.holdS) m = 0 := by
  refine Multiset.countP_eq_zero.mpr (fun a ha hEq => ?_)
  subst hEq
  exact Multiset.countP_eq_zero.mp h0 PC.holdS ha rfl

/-- The invariant is preserved by every atomic step. -/
theorem inv_step {s1 s2 : Sys} (h : Step s1 s2) (inv : Inv s1) : Inv s2 := by
  obtain ⟨cardlt, counted, wonce, flag, excl⟩ := inv
  cases h with
  | startShared m c f =>
    refine ⟨by simpa using cardlt, ?_, ?_, ?_, ?_⟩
    · simpa [Multiset.countP_cons] using counted
    · simpa [Multiset.countP_cons] using wonce
    · simpa [Multiset.countP_cons] using flag
    · intro hx
      have hx' : PC.holdX ∈ m := by simpa using hx
      have h0 := excl (Multiset.mem_cons_of_mem hx')
      simpa [Multiset.countP_cons] using h0
  | startExclusive m c f =>
    refine ⟨by simpa using cardlt, ?_, ?_, ?_, ?_⟩
    · simpa [Multiset.countP_cons] using counted
    · simpa [Multiset.countP_cons] using wonce
    · simpa [Multiset.countP_cons] using flag
    · intro hx
      have hx' : PC.holdX ∈ m := by simpa using hx
      have h0 := excl (Multiset.mem_cons_of_mem hx')
      simpa [Multiset.countP_cons] using h0
  | sharedObserveFree m c =>
    refine ⟨by simpa using cardlt, ?_, ?_, ?_, ?_⟩
    · simpa [Multiset.countP_cons] using counted
    · simpa [Multiset.countP_cons] using wonce
    · simpa [Multiset.countP_cons] using flag
    · intro hx
      have hx' : PC.holdX ∈ m := by simpa using hx
      have h0 := excl (Multiset.mem_cons_of_mem hx')
      simpa [Multiset.countP_cons] using h0
  | sharedSpin m c =>
    exact ⟨cardlt, counted, wonce, flag, excl⟩
  | sharedGiveUp m c f =>
    refine ⟨by simpa using cardlt, ?_, ?_, ?_, ?_⟩
    · simpa [Multiset.countP_cons] using counted
    · simpa [Multiset.countP_cons] using wonce
    · simpa [Multiset.countP_cons] using flag
    · intro hx
      have hx' : PC.holdX ∈ m := by simpa using hx
      have h0 := excl (Multiset.mem_cons_of_mem hx')
      simpa [Multiset.countP_cons] using h0
  | sharedInc m c f =>
    have hcard : Multiset.card m + 1 < UINT_MOD := by simpa using cardlt
    have hc : c = Multiset.countP (fun pc => readerContrib pc = true) m := by
      simpa [Multiset.countP_cons] using counted
    have hle := Multiset.countP_le_card (fun pc => readerContrib pc = true) m
    refine ⟨by simpa using cardlt, ?_, ?_, ?_, ?_⟩
    · show (c + 1) % UINT_MOD = _
      simp [Multiset.countP_cons]
      rw [hc, UINT_MOD_eq]
      rw [UINT_MOD_eq] at hcard
      omega
    · simpa [Multiset.countP_cons] using wonce
    · simpa [Multiset.countP_cons] using flag
    · intro hx
      have hx' : PC.holdX ∈ m := by simpa using hx
      have h0 := excl (Multiset.mem_cons_of_mem hx')
      simpa [Multiset.countP_cons] using h0
  | sharedRecheckFree m c =>
    refine ⟨by simpa using cardlt, ?_, ?_, ?_, ?_⟩
    · simpa [Multiset.countP_cons] using counted
    · simpa [Multiset.countP_cons] using wonce
    · simpa [Multiset.countP_cons] using flag
    · intro hx
      have hx' : PC.holdX ∈ m := by simpa using hx
      have hpos : 0 < Multiset.countP (fun pc => writerish pc = true) m :=
        writerish_mem_pos hx'
      have hft : false = true := flag.mpr (by
        simpa [Multiset.countP_cons] using hpos)
      exact Bool.noConfusion hft
  | sharedRecheckWriter m c =>
    refine ⟨by simpa using cardlt, ?_, ?_, ?_, ?_⟩
    · simpa [Multiset.countP_cons] using counted
    · simpa [Multiset.countP_cons] using wonce
    · simpa [Multiset.countP_cons] using flag
    · intro hx
      have hx' : PC.holdX ∈ m := by simpa using hx
      have h0 := excl (Multiset.mem_cons_of_mem hx')
      simpa [Multiset.countP_cons] using h0
  | sharedBackout m c f =>
    have hcard : Multiset.card m + 1 < UINT_MOD := by simpa using cardlt
    have hc : c = Multiset.countP (fun pc => readerContrib pc = true) m + 1 := by
      simpa [Multiset.countP_cons] using counted
    have hle := Multiset.countP_le_card (fun pc => readerContrib pc = true) m
    refine ⟨by simpa using cardlt, ?_, ?_, ?_, ?_⟩
    · show (c + (UINT_MOD - 1)) % UINT_MOD = _
      simp [Multiset.countP_cons]
      rw [hc, UINT_MOD_eq]
      rw [UINT_MOD_eq] at hcard
      omega
    · simpa [Multiset.countP_cons] using wonce
    · simpa [Multiset.countP_cons] using flag
    · intro hx
      have hx' : PC.holdX ∈ m := by simpa using hx
      have h0 := excl (Multiset.mem_cons_of_mem hx')
      simpa [Multiset.countP_cons] using h0
  | sharedBackoutGiveUp m c f =>
    have hcard : Multiset.card m + 1 < UINT_MOD := by simpa using cardlt
    have hc : c = Multiset.countP (fun pc => readerContrib pc = true) m + 1 := by
      simpa [Multiset.countP_cons] using counted
    have hle := Multiset.countP_le_card (fun pc => readerContrib pc = true) m
    refine ⟨by simpa using cardlt, ?_, ?_, ?_, ?_⟩
    · show (c + (UINT_MOD - 1)) % UINT_MOD = _
      simp [Multiset.countP_cons]
      rw [hc, UINT_MOD_eq]
      rw [UINT_MOD_eq] at hcard
      omega
    · simpa [Multiset.countP_cons] using wonce
    · simpa [Multiset.countP_cons] using flag
    · intro hx
      have hx' : PC.holdX ∈ m := by simpa using hx
      have h0 := excl (Multiset.mem_cons_of_mem hx')
      simpa [Multiset.countP_cons] using h0
  | unlockShared m c f =>
    have hcard : Multiset.card m + 1 < UINT_MOD := by simpa using cardlt
    have hc : c = Multiset.countP (fun pc => readerContrib pc = true) m + 1 := by
      simpa [Multiset.countP_cons] using counted
    have hle := Multiset.countP_le_card (fun pc => readerContrib pc = true) m
    refine ⟨by simpa using cardlt, ?_, ?_, ?_, ?_⟩
    · show (c + (UINT_MOD - 1)) % UINT_MOD = _
      simp [Multiset.countP_cons]
      rw [hc, UINT_MOD_eq]
      rw [UINT_MOD_eq] at hcard
      omega
    · simpa [Multiset.countP_cons] using wonce
    · simpa [Multiset.countP_cons] using flag
    · intro hx
      have hx' : PC.holdX ∈ m := by simpa using hx
      have h0 := excl (Multiset.mem_cons_of_mem hx')
      simp [Multiset.countP_cons] at h0
  | casFail m c f =>
    exact ⟨cardlt, counted, wonce, flag, excl⟩
  | casGiveUp m c f =>
    refine ⟨by simpa using cardlt, ?_, ?_, ?_, ?_⟩
    · simpa [Multiset.countP_cons] using counted
    · simpa [Multiset.countP_cons] using wonce
    · simpa [Multiset.countP_cons] using flag
    · intro hx
      have hx' : PC.holdX ∈ m := by simpa using hx
      have h0 := excl (Multiset.mem_cons_of_mem hx')
      simpa [Multiset.countP_cons] using h0
  | casSucceed m c =>
    have hw0 : Multiset.countP (fun pc => writerish pc = true) m = 0 := by
      by_contra hne
      have hpos : 0 < Multiset.countP (fun pc => writerish pc = true)
          (PC.eEntry ::ₘ m) := by
        simp [Multiset.countP_cons]
        exact Nat.pos_of_ne_zero hne
      exact Bool.noConfusion (flag.mpr hpos)
    refine ⟨by simpa using cardlt, ?_, ?_, ?_, ?_⟩
    · simpa [Multiset.countP_cons] using counted
    · simp [Multiset.countP_cons, hw0]
    · simp [Multiset.countP_cons, hw0]
    · intro hx
      have hx' : PC.holdX ∈ m := by simpa using hx
      have hpos := writerish_mem_pos hx'
      rw [hw0] at hpos
      exact absurd hpos (Nat.lt_irrefl 0)
  | drainSpin m c f =>
    exact ⟨cardlt, counted, wonce, flag, excl⟩
  | drainDone m f =>
    have h0 : Multiset.countP (fun pc => readerContrib pc = true) m = 0 := by
      have := counted.symm
      simpa [Multiset.countP_cons] using this
    refine ⟨by simpa using cardlt, ?_, ?_, ?_, ?_⟩
    · simpa [Multiset.countP_cons] using counted
    · simpa [Multiset.countP_cons] using wonce
    · simpa [Multiset.countP_cons] using flag
    · intro _
      have hs := no_holdS_of_readerContrib_zero h0
      simpa [Multiset.countP_cons] using hs
  | drainGiveUp m c f =>
    have hw0 : Multiset.countP (fun pc => writerish pc = true) m = 0 := by
      have hw1 : Multiset.countP (fun pc => writerish pc = true) m + 1 ≤ 1 := by
        simpa [Multiset.countP_cons] using wonce
      omega
    refine ⟨by simpa using cardlt, ?_, ?_, ?_, ?_⟩
    · simpa [Multiset.countP_cons] using counted
    · simp [Multiset.countP_cons, hw0]
    · simp [Multiset.countP_cons, hw0]
    · intro hx
      have hx' : PC.holdX ∈ m := by simpa using hx
      have hpos := writerish_mem_pos hx'
      rw [hw0] at hpos
      exact absurd hpos (Nat.lt_irrefl 0)
  | unlockExclusive m c f =>
    have hw0 : Multiset.countP (fun pc => writerish pc = true) m = 0 := by
      have hw1 : Multiset.countP (fun pc => writerish pc = true) m + 1 ≤ 1 := by
        simpa [Multiset.countP_cons] using wonce
      omega
    refine ⟨by simpa using cardlt, ?_, ?_, ?_, ?_⟩
    · simpa [Multiset.countP_cons] using counted
    · simp [Multiset.countP_cons, hw0]
    · simp [Multiset.countP_cons, hw0]
    · intro hx
      have hx' : PC.holdX ∈ m := by simpa using hx
      have hpos := writerish_mem_pos hx'
      rw [hw0] at hpos
      exact absurd hpos (Nat.lt_irrefl 0)

theorem countP_le_countP_of_imp {α : Type} {p q : α → Prop} [DecidablePred p]
    [DecidablePred q] (h : ∀ a, p a → q a) (m : Multiset α) :
    m.countP p ≤ m.countP q := by
  induction m using Multiset.induction with
  | empty => simp
  | cons a t ih =>
    by_cases hp : p a
    · have hq := h a hp
      simp only [Multiset.countP_cons, if_pos hp, if_pos hq]
      omega
    · simp only [Multiset.countP_cons, if_neg hp]
      by_cases hq : q a
      · simp only [if_pos hq]
        omega
      · simp only [if_neg hq]
        omega

theorem reachable_inv {s0 s : Sys} (h : Reachable s0 s) (h0 : Inv s0) : Inv s := by
  induction h with
  | refl => exact h0
  | tail _ hstep ih => exact inv_step hstep ih

/-- C2: in every state reachable by the step relation from an all-idle
initial state (with fewer than 2^32 threads), at any quiescent point
(all in-flight acquires returned success, no release begun) either
writer_locked is true and reader_count is 0, or writer_locked is false
and reader_count equals the number of threads holding a successful
unreleased shared acquire; moreover in every reachable state at most one
thread holds the lock exclusively, and an exclusive holder is never
concurrent with any shared holder. -/
theorem exclusion_invariant (s0 s : Sys)
    (hidle : ∀ pc ∈ s0.threads, pc = PC.idle)
    (hc0 : s0.reader_count = 0) (hf0 : s0.writer_locked = false)
    (hcard : Multiset.card s0.threads < UINT_MOD)
    (hreach : Reachable s0 s) :
    (Quiescent s →
      (s.writer_locked = true ∧ s.reader_count = 0) ∨
        (s.writer_locked = false ∧
          s.reader_count = s.threads.countP (fun pc => pc = PC.holdS))) ∧
    s.threads.countP (fun pc => pc = PC.holdX) ≤ 1 ∧
    (PC.holdX ∈ s.threads → s.threads.countP (fun pc => pc = PC.holdS) = 0) := by
  have hinv : Inv s := reachable_inv hreach (inv_init s0 hidle hc0 hf0 hcard)
  obtain ⟨cardlt, counted, wonce, flag, excl⟩ := hinv
  refine ⟨?_, ?_, excl⟩
  · intro hq
    by_cases hf : s.writer_locked = true
    · left
      refine ⟨hf, ?_⟩
      have hpos := flag.mp hf
      obtain ⟨a, ha, hpa⟩ := Multiset.countP_pos.mp hpos
      have hx : a = PC.holdX := by
        rcases hq a ha with h1 | h1 | h1 <;> subst h1 <;> simp_all
      subst hx
      have hs0 := excl ha
      rw [counted]
      refine Multiset.countP_eq_zero.mpr ?_
      intro b hb hrb
      rcases hq b hb with h1 | h1 | h1 <;> subst h1
      · simp at hrb
      · exact Multiset.countP_eq_zero.mp hs0 PC.holdS hb rfl
      · simp at hrb
    · right
      have hf2 : s.writer_locked = false := by
        rwa [Bool.not_eq_true] at hf
      refine ⟨hf2, ?_⟩
      rw [counted]
      refine Multiset.countP_congr rfl ?_
      intro x hx
      rcases hq x hx with h1 | h1 | h1 <;> subst h1 <;> simp
  · refine le_trans (countP_le_countP_of_imp (fun a ha => ?_) s.threads) wonce
    subst ha
    rfl

theorem exclusion_invariant_witness :
    (Quiescent ⟨PC.idle ::ₘ 0, 0, false⟩ →
      ((⟨PC.idle ::ₘ 0, 0, false⟩ : Sys).writer_locked = true ∧
        (⟨PC.idle ::ₘ 0, 0, false⟩ : Sys).reader_count = 0) ∨
      ((⟨PC.idle ::ₘ 0, 0, false⟩ : Sys).writer_locked = false ∧
        (⟨PC.idle ::ₘ 0, 0, false⟩ : Sys).reader_count
          = Multiset.countP (fun pc => pc = PC.holdS)
              (⟨PC.idle ::ₘ 0, 0, false⟩ : Sys).threads)) ∧
    Multiset.countP (fun pc => pc = PC.holdX)
        (⟨PC.idle ::ₘ 0, 0, false⟩ : Sys).threads ≤ 1 ∧
    (PC.holdX ∈ (⟨PC.idle ::ₘ 0, 0, false⟩ : Sys).threads →
      Multiset.countP (fun pc => pc = PC.holdS)
          (⟨PC.idle ::ₘ 0, 0, false⟩ : Sys).threads = 0) :=
  exclusion_invariant ⟨PC.idle ::ₘ 0, 0, false⟩ ⟨PC.idle ::ₘ 0, 0, false⟩
    (by decide) rfl rfl (by decide) Reachable.refl

end Smtx
